import Mathlib

/-!
Shallow embedding of the Polymarket arbitrage monitor/executor core
(`arbitrage_executor.py`, `orderbook_monitor.py`, `config.py`).

Modelling conventions:
* Python floats are modelled as rationals (`ℚ`).  All comparisons the
  verified claims exercise are far from representation boundaries.
* Python division raises `ZeroDivisionError` on a zero denominator, so a
  function that may divide by zero is embedded with an `Option` result,
  `none` standing for an uncaught exception at that point.
* Python dicts are modelled as insertion-ordered association lists:
  updating an existing key replaces the value in place, a new key is
  appended at the end, and iteration over `.values()` is `map Prod.snd`.
* The opaque trading client (`py_clob_client`) is modelled by oracle
  responses: each `create_order` call is given its `Option String`
  result (`none` = any failure or exception inside `place_order`), and
  the `cancel_order` outcome is a `Bool` that the code ignores.
-/

/-- Ordered-dict lookup on an association list. -/
def alookup {α : Type} (l : List (String × α)) (k : String) : Option α :=
  match l with
  | [] => none
  | (k', v) :: rest => if k' = k then some v else alookup rest k

/-- Ordered-dict update: replace in place if the key exists, else append. -/
def updateAssoc {α : Type} (l : List (String × α)) (k : String) (v : α) :
    List (String × α) :=
  match l with
  | [] => [(k, v)]
  | (k', v') :: rest =>
    if k' = k then (k', v) :: rest else (k', v') :: updateAssoc rest k v

/-- `ArbitrageExecutor.calculate_stakes` (2-way).  Python raises
`ZeroDivisionError` when `price1 + price2 = 0`, hence the `Option`. -/
def calculate_stakes (price1 price2 bankroll : ℚ) : Option (ℚ × ℚ) :=
  let total_price := price1 + price2
  if total_price = 0 then none
  else
    some (bankroll * price1 / total_price, bankroll * price2 / total_price)

/-- `ArbitrageExecutor.calculate_stakes_3way`. -/
def calculate_stakes_3way (price1 price2 price3 bankroll : ℚ) :
    Option (ℚ × ℚ × ℚ) :=
  let total_price := price1 + price2 + price3
  if total_price = 0 then none
  else
    some (bankroll * price1 / total_price,
          bankroll * price2 / total_price,
          bankroll * price3 / total_price)

/-- `ArbitrageExecutor.calculate_profit`: average of the two per-outcome
profits; divides by each price, so zero prices raise. -/
def calculate_profit (price1 price2 stake1 stake2 : ℚ) : Option ℚ :=
  if price1 = 0 then none
  else if price2 = 0 then none
  else
    let payout1 := stake1 / price1
    let profit1 := payout1 - (stake1 + stake2)
    let payout2 := stake2 / price2
    let profit2 := payout2 - (stake1 + stake2)
    some ((profit1 + profit2) / 2)

/-- `ArbitrageExecutor.should_execute`.  The division
`(1.0 - total) / total` raises `ZeroDivisionError` at `total = 0`; that
line is only reached with auto-execute on and `total < 1`. -/
def should_execute (auto_execute : Bool) (min_profit_percent total : ℚ) :
    Option Bool :=
  if auto_execute = false then some false
  else if 1 ≤ total then some false
  else if total = 0 then none
  else
    let profit_percent := (1 - total) / total * 100
    if profit_percent < min_profit_percent then some false else some true

/-- `ArbitrageOpportunity` dataclass. -/
structure ArbitrageOpportunity where
  event_title : String
  market_type : String
  side1_token_id : String
  side1_name : String
  side1_price : ℚ
  side2_token_id : String
  side2_name : String
  side2_price : ℚ
  total : ℚ
  profit_percent : ℚ
  timestamp : ℚ
deriving DecidableEq, Repr

/-- `ArbitrageExecution` dataclass (the per-call execution record). -/
structure ArbitrageExecution where
  opportunity : ArbitrageOpportunity
  bankroll : ℚ
  stake1 : ℚ
  stake2 : ℚ
  order1_id : Option String
  order2_id : Option String
  success : Bool
  error : Option String
  timestamp : ℚ
deriving DecidableEq, Repr

/-- Mutable state of an `ArbitrageExecutor`.  `clientInit` is whether the
CLOB client construction in `__init__` succeeded (`self.client` not
`None`); nothing ever reassigns it. -/
structure ArbitrageExecutor where
  bankroll : ℚ
  min_profit_percent : ℚ
  auto_execute : Bool
  clientInit : Bool
  executions : List ArbitrageExecution
  total_profit : ℚ
  successful_trades : Nat
  failed_trades : Nat
deriving DecidableEq, Repr

/-- Oracle responses of the opaque trading client for one
`execute_arbitrage` call. -/
structure ClientResponses where
  resp1 : Option String
  resp2 : Option String
  cancelOk : Bool
deriving DecidableEq, Repr

/-- Which external calls a single `execute_arbitrage` run performed. -/
structure ExecTrace where
  leg1Attempted : Bool
  leg2Attempted : Bool
  cancelAttempts : Nat
deriving DecidableEq, Repr

/-- `ArbitrageExecutor.place_order`: with no client it logs and returns
`None`; otherwise the (caught-exception-safe) outcome is the oracle
response. -/
def place_order (clientInit : Bool) (resp : Option String) : Option String :=
  if clientInit then resp else none

/-- `ArbitrageExecutor.execute_arbitrage`.  The stake and profit
computations run before the `try` block, so a zero denominator there is
an uncaught `ZeroDivisionError` (`none`).  Inside the `try`, leg-1
failure aborts before leg 2; leg-2 failure triggers one best-effort
cancel whose outcome (`cr.cancelOk`) is ignored. -/
def execute_arbitrage (ex : ArbitrageExecutor) (opp : ArbitrageOpportunity)
    (now : ℚ) (cr : ClientResponses) :
    Option (ArbitrageExecutor × ArbitrageExecution × ExecTrace) :=
  match calculate_stakes opp.side1_price opp.side2_price ex.bankroll with
  | none => none
  | some (stake1, stake2) =>
    match calculate_profit opp.side1_price opp.side2_price stake1 stake2 with
    | none => none
    | some profit =>
      match place_order ex.clientInit cr.resp1 with
      | none =>
        let result : ArbitrageExecution :=
          ⟨opp, ex.bankroll, stake1, stake2, none, none, false,
            some "Failed to place order 1", now⟩
        some ({ ex with
                  failed_trades := ex.failed_trades + 1,
                  executions := ex.executions ++ [result] },
              result, ⟨true, false, 0⟩)
      | some id1 =>
        match place_order ex.clientInit cr.resp2 with
        | none =>
          let result : ArbitrageExecution :=
            ⟨opp, ex.bankroll, stake1, stake2, some id1, none, false,
              some "Failed to place order 2", now⟩
          some ({ ex with
                    failed_trades := ex.failed_trades + 1,
                    executions := ex.executions ++ [result] },
                result, ⟨true, true, 1⟩)
        | some id2 =>
          let result : ArbitrageExecution :=
            ⟨opp, ex.bankroll, stake1, stake2, some id1, some id2, true,
              none, now⟩
          some ({ ex with
                    successful_trades := ex.successful_trades + 1,
                    total_profit := ex.total_profit + profit,
                    executions := ex.executions ++ [result] },
                result, ⟨true, true, 0⟩)

/-- A sequence of `execute_arbitrage` calls; a call that raised (`none`)
mutated nothing, so the executor state is kept. -/
def runCalls (ex : ArbitrageExecutor)
    (calls : List (ArbitrageOpportunity × ℚ × ClientResponses)) :
    ArbitrageExecutor :=
  calls.foldl
    (fun e c =>
      match execute_arbitrage e c.1 c.2.1 c.2.2 with
      | none => e
      | some (e', _, _) => e')
    ex

/-- `ArbitrageExecutor.get_stats` (numeric fields; `round` omitted). -/
def get_stats (ex : ArbitrageExecutor) : Nat × Nat × Nat :=
  (ex.executions.length, ex.successful_trades, ex.failed_trades)

/-- `config.MAX_ORDERBOOK_HISTORY`. -/
def MAX_ORDERBOOK_HISTORY : Nat := 1000

/-- One `{price, size}` entry of an inbound order-book frame. -/
structure BookEntry where
  price : ℚ
  size : ℚ
deriving DecidableEq, Repr

/-- `OrderbookSnapshot` dataclass. -/
structure OrderbookSnapshot where
  timestamp : ℚ
  market_id : String
  market_name : String
  best_bid : ℚ
  best_ask : ℚ
  bid_size : ℚ
  ask_size : ℚ
  spread : ℚ
  mid_price : ℚ
deriving DecidableEq, Repr

/-- `ATHRecord` dataclass. -/
structure ATHRecord where
  market_id : String
  market_name : String
  price : ℚ
  size : ℚ
  timestamp : ℚ
  side : String
deriving DecidableEq, Repr

/-- `ATLRecord` dataclass. -/
structure ATLRecord where
  market_id : String
  market_name : String
  price : ℚ
  size : ℚ
  timestamp : ℚ
  side : String
deriving DecidableEq, Repr

/-- `BestMatch` dataclass. -/
structure BestMatch where
  event_id : String
  event_title : String
  market_type : String
  side1_name : String
  side1_price : ℚ
  side2_name : String
  side2_price : ℚ
  total : ℚ
  timestamp : ℚ
deriving DecidableEq, Repr

/-- `TotalRecord` dataclass. -/
structure TotalRecord where
  event_id : String
  event_title : String
  market_type : String
  side1_name : String
  side1_price : ℚ
  side2_name : String
  side2_price : ℚ
  total : ℚ
  timestamp : ℚ
  is_best : Bool
deriving DecidableEq, Repr

/-- Python's `min(asks, key=price)`: first entry attaining the minimum
price, found by a left fold that replaces only on strict decrease. -/
def minAsk (a : BookEntry) (rest : List BookEntry) : BookEntry :=
  rest.foldl (fun acc e => if e.price < acc.price then e else acc) a

/-- The snapshot both `process_book_message` and
`process_orderbook_data` build from the parsed bid/ask lists: best ask
is the minimum-priced ask entry, best bid is `bids[0]` (the code relies
on bids arriving sorted highest-first); either list empty means the item
is skipped. -/
def mkSnapshot (now : ℚ) (market_id market_name : String)
    (bids asks : List BookEntry) : Option OrderbookSnapshot :=
  match bids, asks with
  | b0 :: _, a0 :: arest =>
    let m := minAsk a0 arest
    some { timestamp := now
           market_id := market_id
           market_name := market_name
           best_bid := b0.price
           best_ask := m.price
           bid_size := b0.size
           ask_size := m.size
           spread := m.price - b0.price
           mid_price := (b0.price + m.price) / 2 }
  | _, _ => none

/-- `deque(maxlen=cap)` append: add on the right, evict oldest beyond
`cap`. -/
def dequePush {α : Type} (cap : Nat) (h : List α) (x : α) : List α :=
  let h' := h ++ [x]
  if cap < h'.length then h'.drop (h'.length - cap) else h'

/-- `OrderbookMonitor.check_ath` on the dict entry for one
`market_id_side` key: replace when the key is absent or the new price is
strictly greater. -/
def check_ath (cur : Option ATHRecord) (market_id market_name : String)
    (price size now : ℚ) (side : String) : ATHRecord :=
  match cur with
  | none => ⟨market_id, market_name, price, size, now, side⟩
  | some r =>
    if r.price < price then ⟨market_id, market_name, price, size, now, side⟩
    else r

/-- `OrderbookMonitor.check_atl` on one dict entry: replace when absent
or strictly smaller. -/
def check_atl (cur : Option ATLRecord) (market_id market_name : String)
    (price size now : ℚ) (side : String) : ATLRecord :=
  match cur with
  | none => ⟨market_id, market_name, price, size, now, side⟩
  | some r =>
    if price < r.price then ⟨market_id, market_name, price, size, now, side⟩
    else r

/-- Monitor store state (the fields the core claims concern; the log
ring and latency window are presentation bookkeeping and are omitted). -/
structure MonitorState where
  current_snapshots : List (String × OrderbookSnapshot)
  orderbook_data : List (String × List OrderbookSnapshot)
  ath_records : List (String × ATHRecord)
  atl_records : List (String × ATLRecord)
  best_matches : List BestMatch
  total_records : List TotalRecord
  last_totals : List (String × ℚ)
  token_to_market : List (String × String)
deriving DecidableEq, Repr

/-- One member of an `(event, market-type)` group in
`check_best_matches`. -/
structure GroupItem where
  snapshot : OrderbookSnapshot
  outcome : String
deriving DecidableEq, Repr

/-- One step of the left-to-right scan of Python `str.split(sep)`: grow
the current segment; when the separator just matched (is a suffix of
the grown segment), close the segment without it. -/
def splitStep (sep : List Char) (st : List (List Char) × List Char)
    (c : Char) : List (List Char) × List Char :=
  let cur := st.2 ++ [c]
  if sep.isSuffixOf cur then
    (st.1 ++ [cur.take (cur.length - sep.length)], [])
  else (st.1, cur)

/-- Python `s.split(sep)` for a non-empty separator: non-overlapping
left-to-right matches; `"".split(sep) = [""]`. -/
def pySplit (s sep : String) : List String :=
  let r := s.data.foldl (splitStep sep.data) ([], [])
  (r.1 ++ [r.2]).map String.mk

/-- Substring test, `pat in s` for non-empty `pat`: Python `in` holds
exactly when splitting yields more than one part. -/
def strContains (s pat : String) : Bool :=
  (pySplit s pat).length != 1

/-- Market-type classification from the free-text event name. -/
def marketTypeOf (event_name : String) : String :=
  if strContains event_name "Spread" then "Spread"
  else if strContains event_name "O/U" || strContains event_name "Over/Under"
    then "O/U"
  else "Moneyline"

/-- Parse one snapshot's `market_name` into its group coordinates;
names without " - " are skipped. -/
def snapshotGroupKey (s : OrderbookSnapshot) :
    Option (String × String × GroupItem) :=
  match pySplit s.market_name " - " with
  | p0 :: p1 :: _ => some (p0, marketTypeOf p0, ⟨s, p1⟩)
  | _ => none

/-- Append an item to the inner (market-type keyed) defaultdict. -/
def addToInner (inner : List (String × List GroupItem)) (mt : String)
    (it : GroupItem) : List (String × List GroupItem) :=
  match inner with
  | [] => [(mt, [it])]
  | (mt', its) :: rest =>
    if mt' = mt then (mt', its ++ [it]) :: rest
    else (mt', its) :: addToInner rest mt it

/-- Append an item to the outer (event keyed) defaultdict. -/
def addToGroups (gs : List (String × List (String × List GroupItem)))
    (ev mt : String) (it : GroupItem) :
    List (String × List (String × List GroupItem)) :=
  match gs with
  | [] => [(ev, [(mt, [it])])]
  | (ev', inner) :: rest =>
    if ev' = ev then (ev', addToInner inner mt it) :: rest
    else (ev', inner) :: addToGroups rest ev mt it

/-- The `event_markets` nested defaultdict built by the grouping loop of
`check_best_matches`, in Python insertion order. -/
def buildGroups (snaps : List OrderbookSnapshot) :
    List (String × List (String × List GroupItem)) :=
  snaps.foldl
    (fun gs s =>
      match snapshotGroupKey s with
      | some (ev, mt, it) => addToGroups gs ev mt it
      | none => gs)
    []

/-- Flatten the nested groups into the sequence the nested `for` loops
visit. -/
def flatGroups (gs : List (String × List (String × List GroupItem))) :
    List (String × String × List GroupItem) :=
  match gs with
  | [] => []
  | (ev, inner) :: rest =>
    inner.map (fun q => (ev, q.1, q.2)) ++ flatGroups rest

/-- The dedup key `f"{event_name}_{market_type}"`. -/
def pairKey (ev mt : String) : String := ev ++ "_" ++ mt

/-- The dedup test: record when the key is absent or the sum moved by
more than 0.001. -/
def totalChanged (lt : List (String × ℚ)) (k : String) (total : ℚ) : Bool :=
  match alookup lt k with
  | none => true
  | some last => decide (1 / 1000 < |last - total|)

/-- The `TotalRecord` appended for a qualifying pair. -/
def mkTotalRecord (now : ℚ) (ev mt : String) (side1 side2 : GroupItem)
    (total : ℚ) : TotalRecord :=
  ⟨pairKey ev mt, ev, mt, side1.outcome, side1.snapshot.best_ask,
    side2.outcome, side2.snapshot.best_ask, total, now, decide (total < 1)⟩

/-- The `BestMatch` appended when the recorded sum is under 1. -/
def mkBestMatch (now : ℚ) (ev mt : String) (side1 side2 : GroupItem)
    (total : ℚ) : BestMatch :=
  ⟨pairKey ev mt, ev, mt, side1.outcome, side1.snapshot.best_ask,
    side2.outcome, side2.snapshot.best_ask, total, now⟩

/-- Body of the nested loop of `check_best_matches` for one
`(event, market-type)` group (monitor without an attached executor, as
constructed at module scope: `arbitrage_executor = None`). -/
def processGroup (now : ℚ) (st : MonitorState)
    (g : String × String × List GroupItem) : MonitorState :=
  match g with
  | (ev, mt, [side1, side2]) =>
    let total := side1.snapshot.best_ask + side2.snapshot.best_ask
    let k := pairKey ev mt
    if totalChanged st.last_totals k total then
      let st1 :=
        { st with
            total_records :=
              st.total_records ++ [mkTotalRecord now ev mt side1 side2 total],
            last_totals := updateAssoc st.last_totals k total }
      if total < 1 then
        { st1 with
            best_matches :=
              st1.best_matches ++ [mkBestMatch now ev mt side1 side2 total] }
      else st1
    else st
  | _ => st

/-- `OrderbookMonitor.check_best_matches`: group the current snapshots,
then run the nested loops. -/
def check_best_matches (now : ℚ) (st : MonitorState) : MonitorState :=
  let gs := buildGroups (st.current_snapshots.map Prod.snd)
  gs.foldl
    (fun s p => p.2.foldl (fun s2 q => processGroup now s2 (p.1, q.1, q.2)) s)
    st

/-- The store updates shared by both ingestion paths: replace the
current snapshot, append to the bounded history, update the four
extreme records. -/
def ingestSnapshot (st : MonitorState) (token_id market_name : String)
    (snap : OrderbookSnapshot) : MonitorState :=
  let hist := (alookup st.orderbook_data token_id).getD []
  let bidKey := token_id ++ "_bid"
  let askKey := token_id ++ "_ask"
  { st with
      current_snapshots := updateAssoc st.current_snapshots token_id snap,
      orderbook_data :=
        updateAssoc st.orderbook_data token_id
          (dequePush MAX_ORDERBOOK_HISTORY hist snap),
      ath_records :=
        updateAssoc
          (updateAssoc st.ath_records bidKey
            (check_ath (alookup st.ath_records bidKey) token_id market_name
              snap.best_bid snap.bid_size snap.timestamp "bid"))
          askKey
          (check_ath
            (alookup
              (updateAssoc st.ath_records bidKey
                (check_ath (alookup st.ath_records bidKey) token_id
                  market_name snap.best_bid snap.bid_size snap.timestamp
                  "bid"))
              askKey)
            token_id market_name snap.best_ask snap.ask_size snap.timestamp
            "ask"),
      atl_records :=
        updateAssoc
          (updateAssoc st.atl_records bidKey
            (check_atl (alookup st.atl_records bidKey) token_id market_name
              snap.best_bid snap.bid_size snap.timestamp "bid"))
          askKey
          (check_atl
            (alookup
              (updateAssoc st.atl_records bidKey
                (check_atl (alookup st.atl_records bidKey) token_id
                  market_name snap.best_bid snap.bid_size snap.timestamp
                  "bid"))
              askKey)
            token_id market_name snap.best_ask snap.ask_size snap.timestamp
            "ask") }

/-- `OrderbookMonitor.process_orderbook_data` (REST path): skip when a
side is empty, else build the snapshot and update the store.  This path
does not rescan for best matches. -/
def process_orderbook_data (st : MonitorState) (token_id market_name : String)
    (bids asks : List BookEntry) (now : ℚ) : MonitorState :=
  match mkSnapshot now token_id market_name bids asks with
  | none => st
  | some snap => ingestSnapshot st token_id market_name snap

/-- An inbound WebSocket book frame. -/
structure BookData where
  asset_id : Option String
  bids : List BookEntry
  asks : List BookEntry
deriving DecidableEq, Repr

/-- `OrderbookMonitor.process_book_message` (WebSocket path): resolve
the market name, build the snapshot, update the store, then scan for
best matches. -/
def process_book_message (st : MonitorState) (data : BookData) (now : ℚ) :
    MonitorState :=
  match data.asset_id with
  | none => st
  | some asset_id =>
    let market_name := (alookup st.token_to_market asset_id).getD "Unknown"
    match mkSnapshot now asset_id market_name data.bids data.asks with
    | none => st
    | some snap =>
      check_best_matches now (ingestSnapshot st asset_id market_name snap)

/-- Claim C1: equal-profit stake sizing.  For positive prices and a
positive bankroll, both calculators return `stake_i = B * p_i / Σp`,
the stakes sum to `B`, every payout `stake_i / p_i` equals `B / Σp`
(identical across outcomes), and the common profit (payout minus the
bankroll staked) is `B * (1 - Σp) / Σp` regardless of outcome. -/
theorem C1_equal_profit_stakes (p1 p2 p3 B : ℚ)
    (h1 : 0 < p1) (h2 : 0 < p2) (h3 : 0 < p3) (hB : 0 < B) :
    calculate_stakes p1 p2 B =
      some (B * p1 / (p1 + p2), B * p2 / (p1 + p2)) ∧
    B * p1 / (p1 + p2) + B * p2 / (p1 + p2) = B ∧
    B * p1 / (p1 + p2) / p1 = B / (p1 + p2) ∧
    B * p2 / (p1 + p2) / p2 = B / (p1 + p2) ∧
    B / (p1 + p2) - B = B * (1 - (p1 + p2)) / (p1 + p2) ∧
    calculate_stakes_3way p1 p2 p3 B =
      some (B * p1 / (p1 + p2 + p3), B * p2 / (p1 + p2 + p3),
            B * p3 / (p1 + p2 + p3)) ∧
    B * p1 / (p1 + p2 + p3) + B * p2 / (p1 + p2 + p3) +
      B * p3 / (p1 + p2 + p3) = B ∧
    B * p1 / (p1 + p2 + p3) / p1 = B / (p1 + p2 + p3) ∧
    B * p2 / (p1 + p2 + p3) / p2 = B / (p1 + p2 + p3) ∧
    B * p3 / (p1 + p2 + p3) / p3 = B / (p1 + p2 + p3) ∧
    B / (p1 + p2 + p3) - B = B * (1 - (p1 + p2 + p3)) / (p1 + p2 + p3) := by
  have hs2 : p1 + p2 ≠ 0 := by positivity
  have hs3 : p1 + p2 + p3 ≠ 0 := by positivity
  refine ⟨by simp [calculate_stakes, hs2], by field_simp; ring,
    ?_, ?_, by field_simp; ring,
    by simp [calculate_stakes_3way, hs3], by field_simp; ring,
    ?_, ?_, ?_, by field_simp; ring⟩
  · rw [div_div, mul_comm (p1 + p2) p1, ← div_div, mul_div_assoc,
      div_self h1.ne', mul_one]
  · rw [div_div, mul_comm (p1 + p2) p2, ← div_div, mul_div_assoc,
      div_self h2.ne', mul_one]
  · rw [div_div, mul_comm (p1 + p2 + p3) p1, ← div_div, mul_div_assoc,
      div_self h1.ne', mul_one]
  · rw [div_div, mul_comm (p1 + p2 + p3) p2, ← div_div, mul_div_assoc,
      div_self h2.ne', mul_one]
  · rw [div_div, mul_comm (p1 + p2 + p3) p3, ← div_div, mul_div_assoc,
      div_self h3.ne', mul_one]

/-- Witness for C1 at the spec's example prices
`p1 = 0.49, p2 = 0.48, p3 = 0.32, B = 100`. -/
theorem C1_equal_profit_stakes_witness :
    calculate_stakes (49/100) (48/100) 100 =
      some (100 * (49/100) / (49/100 + 48/100),
            100 * (48/100) / (49/100 + 48/100)) ∧
    (100 : ℚ) * (49/100) / (49/100 + 48/100) +
      100 * (48/100) / (49/100 + 48/100) = 100 ∧
    (100 : ℚ) * (49/100) / (49/100 + 48/100) / (49/100) =
      100 / (49/100 + 48/100) ∧
    (100 : ℚ) * (48/100) / (49/100 + 48/100) / (48/100) =
      100 / (49/100 + 48/100) ∧
    (100 : ℚ) / (49/100 + 48/100) - 100 =
      100 * (1 - (49/100 + 48/100)) / (49/100 + 48/100) ∧
    calculate_stakes_3way (49/100) (48/100) (32/100) 100 =
      some (100 * (49/100) / (49/100 + 48/100 + 32/100),
            100 * (48/100) / (49/100 + 48/100 + 32/100),
            100 * (32/100) / (49/100 + 48/100 + 32/100)) ∧
    (100 : ℚ) * (49/100) / (49/100 + 48/100 + 32/100) +
      100 * (48/100) / (49/100 + 48/100 + 32/100) +
      100 * (32/100) / (49/100 + 48/100 + 32/100) = 100 ∧
    (100 : ℚ) * (49/100) / (49/100 + 48/100 + 32/100) / (49/100) =
      100 / (49/100 + 48/100 + 32/100) ∧
    (100 : ℚ) * (48/100) / (49/100 + 48/100 + 32/100) / (48/100) =
      100 / (49/100 + 48/100 + 32/100) ∧
    (100 : ℚ) * (32/100) / (49/100 + 48/100 + 32/100) / (32/100) =
      100 / (49/100 + 48/100 + 32/100) ∧
    (100 : ℚ) / (49/100 + 48/100 + 32/100) - 100 =
      100 * (1 - (49/100 + 48/100 + 32/100)) / (49/100 + 48/100 + 32/100) :=
  C1_equal_profit_stakes (49/100) (48/100) (32/100) 100
    (by norm_num) (by norm_num) (by norm_num) (by norm_num)

/-- Claim C3 (amended): the `should_execute` gate.  It returns false
whenever auto-execute is disabled; with auto-execute enabled it returns
false when `total ≥ 1`, and for every nonzero sum below 1 it returns
false exactly when `profit_percent = (1 - total)/total * 100` is below
the configured minimum and true otherwise; with min-profit 1.0%,
`0.97 ↦ true`, `0.995 ↦ false`, `1.0 ↦ false`.  (At `total = 0` the
code raises instead of returning — see the counterexample.) -/
theorem C3_should_execute_gate (min_profit_percent total : ℚ) :
    should_execute false min_profit_percent total = some false ∧
    (1 ≤ total → should_execute true min_profit_percent total = some false) ∧
    (total ≠ 0 → total < 1 →
      (1 - total) / total * 100 < min_profit_percent →
      should_execute true min_profit_percent total = some false) ∧
    (total ≠ 0 → total < 1 →
      ¬((1 - total) / total * 100 < min_profit_percent) →
      should_execute true min_profit_percent total = some true) ∧
    should_execute true 1 (97/100) = some true ∧
    should_execute true 1 (995/1000) = some false ∧
    should_execute true 1 1 = some false := by
  refine ⟨by simp [should_execute], ?_, ?_, ?_,
    by norm_num [should_execute], by norm_num [should_execute],
    by norm_num [should_execute]⟩
  · intro h
    simp [should_execute, h]
  · intro hz hlt hp
    rw [should_execute, if_neg (by simp), if_neg (by simpa using not_le.mpr hlt),
      if_neg hz, if_pos hp]
  · intro hz hlt hp
    rw [should_execute, if_neg (by simp), if_neg (by simpa using not_le.mpr hlt),
      if_neg hz, if_neg hp]

/-- Witness for C3 at `min = 1, total = 0.97` (nonzero, below 1, profit
about 3.09% not below the minimum). -/
theorem C3_should_execute_gate_witness :
    should_execute true 1 (97/100) = some true :=
  (C3_should_execute_gate 1 (97/100)).2.2.2.1 (by norm_num) (by norm_num)
    (by norm_num)

/-- Counterexample to claim C3 as stated: the claim quantifies over
every sum, but at `total = 0` (auto-execute on) the Python code reaches
`(1.0 - total) / total` and raises `ZeroDivisionError` instead of
returning a Boolean (modelled as `none`). -/
theorem C3_zero_sum_counterexample :
    should_execute true 1 0 = none ∧ should_execute true 1 0 ≠ some false ∧
    should_execute true 1 0 ≠ some true := by
  refine ⟨by norm_num [should_execute], by norm_num [should_execute] <;> simp,
    by norm_num [should_execute] <;> simp⟩

/-- `minAsk` returns an entry of the list whose price is minimal (the
first such, like Python's `min` with a key). -/
lemma minAsk_spec (a : BookEntry) (l : List BookEntry) :
    (minAsk a l).price ≤ a.price ∧ (∀ e ∈ l, (minAsk a l).price ≤ e.price) ∧
    minAsk a l ∈ a :: l := by
  induction l generalizing a with
  | nil => simp [minAsk]
  | cons e t ih =>
    have hstep : minAsk a (e :: t) =
        minAsk (if e.price < a.price then e else a) t := rfl
    by_cases h : e.price < a.price
    · rcases ih e with ⟨ih1, ih2, ih3⟩
      rw [hstep, if_pos h]
      refine ⟨le_of_lt (lt_of_le_of_lt ih1 h), ?_, ?_⟩
      · intro x hx
        rcases List.mem_cons.mp hx with hx | hx
        · exact hx ▸ ih1
        · exact ih2 x hx
      · rcases List.mem_cons.mp ih3 with hm | hm
        · exact List.mem_cons_of_mem a (by simp [hm])
        · exact List.mem_cons_of_mem a (List.mem_cons_of_mem e hm)
    · rcases ih a with ⟨ih1, ih2, ih3⟩
      rw [hstep, if_neg h]
      refine ⟨ih1, ?_, ?_⟩
      · intro x hx
        rcases List.mem_cons.mp hx with hx | hx
        · exact hx ▸ le_trans ih1 (not_lt.mp h)
        · exact ih2 x hx
      · rcases List.mem_cons.mp ih3 with hm | hm
        · simp [hm]
        · exact List.mem_cons_of_mem a (List.mem_cons_of_mem e hm)

/-- Claim C4 (amended): best-price extraction.  For a frame with
non-empty bid and ask lists, the produced snapshot's best ask is the
minimum-priced ask entry (with its size), valid for ask lists in any
order; the best bid is taken from the first entry of the bid list — the
code assumes bids arrive sorted highest-first — so it equals the
highest bid price exactly when the first entry attains the maximum. -/
theorem C4_best_price_extraction (now : ℚ) (market_id market_name : String)
    (b0 : BookEntry) (brest : List BookEntry) (a0 : BookEntry)
    (arest : List BookEntry) :
    ∃ s, mkSnapshot now market_id market_name (b0 :: brest) (a0 :: arest) =
        some s ∧
      (∀ e ∈ a0 :: arest, s.best_ask ≤ e.price) ∧
      (∃ e ∈ a0 :: arest, s.best_ask = e.price ∧ s.ask_size = e.size) ∧
      s.best_bid = b0.price ∧ s.bid_size = b0.size ∧
      ((∀ e ∈ b0 :: brest, e.price ≤ b0.price) →
        ∀ e ∈ b0 :: brest, e.price ≤ s.best_bid) := by
  rcases minAsk_spec a0 arest with ⟨h1, h2, h3⟩
  refine ⟨_, rfl, ?_, ?_, rfl, rfl, ?_⟩
  · intro e he
    rcases List.mem_cons.mp he with he | he
    · exact he ▸ h1
    · exact h2 e he
  · exact ⟨minAsk a0 arest, h3, rfl, rfl⟩
  · intro h e he
    exact h e he

/-- Witness for C4 on an unsorted ask list (`0.6` before `0.55`) and a
single bid. -/
theorem C4_best_price_extraction_witness :
    ∃ s, mkSnapshot 0 "tok" "Event - Yes" [BookEntry.mk (1/2) 10]
        [BookEntry.mk (3/5) 5, BookEntry.mk (11/20) 7] = some s ∧
      (∀ e ∈ [BookEntry.mk (3/5) 5, BookEntry.mk (11/20) 7],
        s.best_ask ≤ e.price) ∧
      (∃ e ∈ [BookEntry.mk (3/5) 5, BookEntry.mk (11/20) 7],
        s.best_ask = e.price ∧ s.ask_size = e.size) ∧
      s.best_bid = (BookEntry.mk (1/2 : ℚ) 10).price ∧
      s.bid_size = (BookEntry.mk (1/2 : ℚ) 10).size ∧
      ((∀ e ∈ [BookEntry.mk (1/2 : ℚ) 10],
          e.price ≤ (BookEntry.mk (1/2 : ℚ) 10).price) →
        ∀ e ∈ [BookEntry.mk (1/2 : ℚ) 10], e.price ≤ s.best_bid) :=
  C4_best_price_extraction 0 "tok" "Event - Yes" (BookEntry.mk (1/2) 10) []
    (BookEntry.mk (3/5) 5) [BookEntry.mk (11/20) 7]

/-- Counterexample to claim C4 as stated: with the unsorted bid list
`[0.3, 0.5]` the produced best bid is `0.3` (the first entry), although
the highest-priced bid entry is `0.5` — the bid side does assume a
pre-sorted list, unlike the ask side. -/
theorem C4_unsorted_bids_counterexample :
    (mkSnapshot 0 "tok" "Event - Yes"
        [BookEntry.mk (3/10) 1, BookEntry.mk (1/2) 1]
        [BookEntry.mk (3/5) 1]).map OrderbookSnapshot.best_bid =
      some (3/10) ∧
    BookEntry.mk (1/2) 1 ∈ [BookEntry.mk (3/10) 1, BookEntry.mk (1/2) 1] ∧
    (3/10 : ℚ) < 1/2 :=
  ⟨rfl, by simp, by norm_num⟩

/-- Well-formedness of one logged execution record: success exactly when
both order ids are present, and a leg-2 id implies a leg-1 id. -/
def execRecordOk (r : ArbitrageExecution) : Prop :=
  (r.success = true ↔ r.order1_id.isSome = true ∧ r.order2_id.isSome = true) ∧
  (r.order2_id.isSome = true → r.order1_id.isSome = true)

/-- Any completed (non-raising) `execute_arbitrage` call appends its
result, bumps exactly one counter matching the result's success flag,
never touches the client handle, and produces a well-formed record with
an error description on failure. -/
lemma execute_arbitrage_some_spec (ex ex' : ArbitrageExecutor)
    (opp : ArbitrageOpportunity) (now : ℚ) (cr : ClientResponses)
    (result : ArbitrageExecution) (trace : ExecTrace)
    (h : execute_arbitrage ex opp now cr = some (ex', result, trace)) :
    ex'.executions = ex.executions ++ [result] ∧
    ex'.clientInit = ex.clientInit ∧
    ((ex'.successful_trades = ex.successful_trades + 1 ∧
      ex'.failed_trades = ex.failed_trades ∧ result.success = true) ∨
     (ex'.successful_trades = ex.successful_trades ∧
      ex'.failed_trades = ex.failed_trades + 1 ∧ result.success = false)) ∧
    execRecordOk result ∧
    (result.success = false → result.error.isSome = true) := by
  cases hcs : calculate_stakes opp.side1_price opp.side2_price ex.bankroll with
  | none =>
    rw [execute_arbitrage, hcs] at h
    exact Option.noConfusion h
  | some p =>
    obtain ⟨s1, s2⟩ := p
    cases hcp : calculate_profit opp.side1_price opp.side2_price s1 s2 with
    | none =>
      rw [execute_arbitrage, hcs] at h
      simp only [hcp] at h
      exact Option.noConfusion h
    | some pr =>
      cases hp1 : place_order ex.clientInit cr.resp1 with
      | none =>
        simp only [execute_arbitrage, hcs, hcp, hp1, Option.some.injEq,
          Prod.mk.injEq] at h
        obtain ⟨he, hr, ht⟩ := h
        subst he hr ht
        simp [execRecordOk]
      | some id1 =>
        cases hp2 : place_order ex.clientInit cr.resp2 with
        | none =>
          simp only [execute_arbitrage, hcs, hcp, hp1, hp2,
            Option.some.injEq, Prod.mk.injEq] at h
          obtain ⟨he, hr, ht⟩ := h
          subst he hr ht
          simp [execRecordOk]
        | some id2 =>
          simp only [execute_arbitrage, hcs, hcp, hp1, hp2,
            Option.some.injEq, Prod.mk.injEq] at h
          obtain ⟨he, hr, ht⟩ := h
          subst he hr ht
          simp [execRecordOk]

/-- Claim C2 (amended): execution compensation, for every call whose
leg prices and price sum are nonzero (so the stake/profit computation
that runs before the `try` block does not raise).  Leg-1 failure: leg 2
never attempted, no cancel, no order ids, success false.  Leg-1 success
with leg-2 failure: exactly one (non-retried) compensating cancel,
leg-1 id kept in the result, success false.  Every such call returns a
result with an error description on failure, and the ignored cancel
outcome never changes anything. -/
theorem C2_execution_compensation (ex : ArbitrageExecutor)
    (opp : ArbitrageOpportunity) (now : ℚ) (cr : ClientResponses)
    (h1 : opp.side1_price ≠ 0) (h2 : opp.side2_price ≠ 0)
    (hs : opp.side1_price + opp.side2_price ≠ 0) :
    ∃ ex' result trace,
      execute_arbitrage ex opp now cr = some (ex', result, trace) ∧
      (place_order ex.clientInit cr.resp1 = none →
        trace.leg2Attempted = false ∧ trace.cancelAttempts = 0 ∧
        result.order1_id = none ∧ result.order2_id = none ∧
        result.success = false) ∧
      (∀ id1, place_order ex.clientInit cr.resp1 = some id1 →
        place_order ex.clientInit cr.resp2 = none →
        trace.cancelAttempts = 1 ∧ result.order1_id = some id1 ∧
        result.order2_id = none ∧ result.success = false) ∧
      (result.success = false → result.error.isSome = true) ∧
      (∀ b, execute_arbitrage ex opp now cr =
        execute_arbitrage ex opp now ⟨cr.resp1, cr.resp2, b⟩) := by
  have hindep : ∀ b, execute_arbitrage ex opp now cr =
      execute_arbitrage ex opp now ⟨cr.resp1, cr.resp2, b⟩ := fun _ => rfl
  obtain ⟨s1, s2, hcs⟩ : ∃ s1 s2,
      calculate_stakes opp.side1_price opp.side2_price ex.bankroll =
        some (s1, s2) := by
    simp [calculate_stakes, hs]
  obtain ⟨pr, hcp⟩ : ∃ pr,
      calculate_profit opp.side1_price opp.side2_price s1 s2 = some pr := by
    simp [calculate_profit, h1, h2]
  cases hp1 : place_order ex.clientInit cr.resp1 with
  | none =>
    refine ⟨_, _, _, by simp only [execute_arbitrage, hcs, hcp, hp1]; rfl, ?_,
      ?_, ?_, hindep⟩
    · intro _
      exact ⟨rfl, rfl, rfl, rfl, rfl⟩
    · intro id1 hid1 _
      exact Option.noConfusion hid1
    · intro _
      rfl
  | some id1 =>
    cases hp2 : place_order ex.clientInit cr.resp2 with
    | none =>
      refine ⟨_, _, _, by simp only [execute_arbitrage, hcs, hcp, hp1, hp2]; rfl,
        ?_, ?_, ?_, hindep⟩
      · intro hid1
        exact Option.noConfusion hid1
      · intro id1' hid1 _
        injection hid1 with e
        subst e
        exact ⟨rfl, rfl, rfl, rfl⟩
      · intro _
        rfl
    | some id2 =>
      refine ⟨_, _, _, by simp only [execute_arbitrage, hcs, hcp, hp1, hp2]; rfl,
        ?_, ?_, ?_, hindep⟩
      · intro hid1
        exact Option.noConfusion hid1
      · intro id1' hid1 hid2
        exact Option.noConfusion hid2
      · intro hsucc
        exact absurd hsucc (by simp)

/-- Executor sample: fresh, auto-execute on, client initialized. -/
def exFresh : ArbitrageExecutor := ⟨100, 1, true, true, [], 0, 0, 0⟩

/-- Executor sample: fresh, but the CLOB client failed to construct. -/
def exNoClient : ArbitrageExecutor := ⟨100, 1, true, false, [], 0, 0, 0⟩

/-- Opportunity with a zero leg-1 price (asks of price 0 are
representable in the feed). -/
def oppZero : ArbitrageOpportunity :=
  ⟨"Event", "Moneyline", "tok1", "A", 0, "tok2", "B", 1, 1, 0, 0⟩

/-- Opportunity at the spec's example prices 0.49/0.48. -/
def oppGood : ArbitrageOpportunity :=
  ⟨"Event", "Moneyline", "tok1", "A", 49/100, "tok2", "B", 48/100,
    97/100, 309/100, 0⟩

/-- Witness for C2: leg-1 failure on a fresh executor at prices
0.49/0.48. -/
theorem C2_execution_compensation_witness :
    ∃ ex' result trace,
      execute_arbitrage exFresh oppGood 0 ⟨none, none, true⟩ =
        some (ex', result, trace) ∧
      (place_order exFresh.clientInit none = none →
        trace.leg2Attempted = false ∧ trace.cancelAttempts = 0 ∧
        result.order1_id = none ∧ result.order2_id = none ∧
        result.success = false) ∧
      (∀ id1, place_order exFresh.clientInit none = some id1 →
        place_order exFresh.clientInit none = none →
        trace.cancelAttempts = 1 ∧ result.order1_id = some id1 ∧
        result.order2_id = none ∧ result.success = false) ∧
      (result.success = false → result.error.isSome = true) ∧
      (∀ b, execute_arbitrage exFresh oppGood 0 ⟨none, none, true⟩ =
        execute_arbitrage exFresh oppGood 0 ⟨none, none, b⟩) :=
  C2_execution_compensation exFresh oppGood 0 ⟨none, none, true⟩
    (by norm_num [oppGood]) (by norm_num [oppGood]) (by norm_num [oppGood])

/-- Counterexample to claim C2 as stated: at a zero leg-1 price the
stake/profit computation before the `try` block raises
`ZeroDivisionError` past the engine's boundary (modelled `none`), so
this call returns no `ExecutionResult` at all. -/
theorem C2_zero_price_counterexample :
    execute_arbitrage exFresh oppZero 0 ⟨some "o1", some "o2", true⟩ =
      none := by
  norm_num [execute_arbitrage, calculate_stakes, calculate_profit, oppZero,
    exFresh]

/-- Claim C8 (amended): with the trading client never constructed
(`clientInit = false`), every call whose leg prices and price sum are
nonzero short-circuits — `place_order` returns `None` for leg 1, so the
call yields a failed `ExecutionResult` with no order ids and an error
description, without raising, and the client stays absent (the field is
never reassigned), so the state is permanent. -/
theorem C8_disabled_client_short_circuit (ex : ArbitrageExecutor)
    (opp : ArbitrageOpportunity) (now : ℚ) (cr : ClientResponses)
    (hc : ex.clientInit = false)
    (h1 : opp.side1_price ≠ 0) (h2 : opp.side2_price ≠ 0)
    (hs : opp.side1_price + opp.side2_price ≠ 0) :
    ∃ ex' result trace,
      execute_arbitrage ex opp now cr = some (ex', result, trace) ∧
      result.success = false ∧ result.order1_id = none ∧
      result.order2_id = none ∧ result.error.isSome = true ∧
      ex'.clientInit = false ∧
      trace.leg2Attempted = false ∧ trace.cancelAttempts = 0 := by
  obtain ⟨s1, s2, hcs⟩ : ∃ s1 s2,
      calculate_stakes opp.side1_price opp.side2_price ex.bankroll =
        some (s1, s2) := by
    simp [calculate_stakes, hs]
  obtain ⟨pr, hcp⟩ : ∃ pr,
      calculate_profit opp.side1_price opp.side2_price s1 s2 = some pr := by
    simp [calculate_profit, h1, h2]
  have hp1 : place_order ex.clientInit cr.resp1 = none := by
    simp [place_order, hc]
  refine ⟨_, _, _, by simp only [execute_arbitrage, hcs, hcp, hp1]; rfl,
    ?_, ?_, ?_, ?_, ?_, ?_, ?_⟩
  · rfl
  · rfl
  · rfl
  · rfl
  · exact hc
  · rfl
  · rfl

/-- Witness for C8: the disabled executor at prices 0.49/0.48, with
oracle responses that would have succeeded had a client existed. -/
theorem C8_disabled_client_short_circuit_witness :
    ∃ ex' result trace,
      execute_arbitrage exNoClient oppGood 0 ⟨some "o1", some "o2", true⟩ =
        some (ex', result, trace) ∧
      result.success = false ∧ result.order1_id = none ∧
      result.order2_id = none ∧ result.error.isSome = true ∧
      ex'.clientInit = false ∧
      trace.leg2Attempted = false ∧ trace.cancelAttempts = 0 :=
  C8_disabled_client_short_circuit exNoClient oppGood 0
    ⟨some "o1", some "o2", true⟩ rfl (by norm_num [oppGood])
    (by norm_num [oppGood]) (by norm_num [oppGood])

/-- Counterexample to claim C8 as stated: even with the client absent,
a call with a zero leg price raises `ZeroDivisionError` (the stake math
runs before the disabled client is consulted), so not every subsequent
call short-circuits to a failed `ExecutionResult`. -/
theorem C8_zero_price_counterexample :
    execute_arbitrage exNoClient oppZero 0 ⟨none, none, true⟩ = none := by
  norm_num [execute_arbitrage, calculate_stakes, calculate_profit, oppZero,
    exNoClient]

/-- Unfolding one step of `runCalls`. -/
lemma runCalls_cons (ex : ArbitrageExecutor)
    (c : ArbitrageOpportunity × ℚ × ClientResponses)
    (cs : List (ArbitrageOpportunity × ℚ × ClientResponses)) :
    runCalls ex (c :: cs) =
      runCalls
        (match execute_arbitrage ex c.1 c.2.1 c.2.2 with
         | none => ex
         | some (e', _, _) => e') cs := rfl

/-- The bookkeeping invariant (counter sum = log length, all logged
records well-formed) is preserved by any sequence of calls; calls that
raise leave the state untouched. -/
lemma runCalls_inv
    (calls : List (ArbitrageOpportunity × ℚ × ClientResponses)) :
    ∀ ex : ArbitrageExecutor,
      ex.successful_trades + ex.failed_trades = ex.executions.length →
      (∀ r ∈ ex.executions, execRecordOk r) →
      (runCalls ex calls).successful_trades +
          (runCalls ex calls).failed_trades =
        (runCalls ex calls).executions.length ∧
      (∀ r ∈ (runCalls ex calls).executions, execRecordOk r) := by
  induction calls with
  | nil =>
    intro ex hcnt hok
    exact ⟨hcnt, hok⟩
  | cons c cs ih =>
    intro ex hcnt hok
    rw [runCalls_cons]
    cases hre : execute_arbitrage ex c.1 c.2.1 c.2.2 with
    | none => exact ih ex hcnt hok
    | some t =>
      obtain ⟨e', r, tr⟩ := t
      obtain ⟨hexec, _, hstep, hrok, _⟩ :=
        execute_arbitrage_some_spec ex e' c.1 c.2.1 c.2.2 r tr hre
      apply ih e'
      · rw [hexec, List.length_append]
        rcases hstep with ⟨hsu, hfa, _⟩ | ⟨hsu, hfa, _⟩ <;>
          rw [hsu, hfa] <;> simp <;> omega
      · intro x hx
        rw [hexec] at hx
        rcases List.mem_append.mp hx with hx | hx
        · exact hok x hx
        · rw [List.mem_singleton] at hx
          subst hx
          exact hrok

/-- Claim C9 (amended): execution bookkeeping.  Every completed
(non-raising) call appends exactly one `ExecutionResult` and increments
exactly one of the two counters; a raising call (zero leg price)
mutates nothing, so after any sequence of calls the counter sum still
equals the number of logged executions, and every logged result has
success exactly when both order ids are present, with a leg-2 id only
ever alongside a leg-1 id. -/
theorem C9_execution_bookkeeping (ex : ArbitrageExecutor)
    (opp : ArbitrageOpportunity) (now : ℚ) (cr : ClientResponses) :
    (∀ ex' result trace,
      execute_arbitrage ex opp now cr = some (ex', result, trace) →
      ex'.executions = ex.executions ++ [result] ∧
      ((ex'.successful_trades = ex.successful_trades + 1 ∧
        ex'.failed_trades = ex.failed_trades) ∨
       (ex'.successful_trades = ex.successful_trades ∧
        ex'.failed_trades = ex.failed_trades + 1)) ∧
      execRecordOk result) ∧
    (∀ calls : List (ArbitrageOpportunity × ℚ × ClientResponses),
      ex.successful_trades + ex.failed_trades = ex.executions.length →
      (∀ r ∈ ex.executions, execRecordOk r) →
      (runCalls ex calls).successful_trades +
          (runCalls ex calls).failed_trades =
        (runCalls ex calls).executions.length ∧
      (∀ r ∈ (runCalls ex calls).executions, execRecordOk r)) := by
  constructor
  · intro ex' result trace h
    obtain ⟨hexec, _, hstep, hrok, _⟩ :=
      execute_arbitrage_some_spec ex ex' opp now cr result trace h
    refine ⟨hexec, ?_, hrok⟩
    rcases hstep with ⟨hsu, hfa, _⟩ | ⟨hsu, hfa, _⟩
    · exact Or.inl ⟨hsu, hfa⟩
    · exact Or.inr ⟨hsu, hfa⟩
  · intro calls hcnt hok
    exact runCalls_inv calls ex hcnt hok

/-- Witness for C9: one successful call on a fresh executor keeps the
invariant. -/
theorem C9_execution_bookkeeping_witness :
    (runCalls exFresh
          [(oppGood, 0, ⟨some "o1", some "o2", true⟩)]).successful_trades +
        (runCalls exFresh
          [(oppGood, 0, ⟨some "o1", some "o2", true⟩)]).failed_trades =
      (runCalls exFresh
        [(oppGood, 0, ⟨some "o1", some "o2", true⟩)]).executions.length ∧
    (∀ r ∈ (runCalls exFresh
        [(oppGood, 0, ⟨some "o1", some "o2", true⟩)]).executions,
      execRecordOk r) :=
  (C9_execution_bookkeeping exFresh oppGood 0
      ⟨some "o1", some "o2", true⟩).2
    [(oppGood, 0, ⟨some "o1", some "o2", true⟩)] rfl
    (by intro r hr; simp [exFresh] at hr)

/-- Counterexample to claim C9 as stated: a call with a zero leg price
raises before any bookkeeping, so it appends no `ExecutionResult` and
increments no counter — "every call appends exactly one" fails. -/
theorem C9_raising_call_counterexample :
    runCalls exFresh [(oppZero, 0, ⟨some "o1", some "o2", true⟩)] =
      exFresh ∧ exFresh.executions.length = 0 := by
  have hre : execute_arbitrage exFresh oppZero 0
      ⟨some "o1", some "o2", true⟩ = none := by
    norm_num [execute_arbitrage, calculate_stakes, calculate_profit,
      oppZero, exFresh]
  exact ⟨by simp [runCalls, hre], rfl⟩

/-- Repeated `check_ath` ingestion for one `(instrument, side)` key,
starting from an existing record; inputs are `(price, size, time)`. -/
def athRunFrom (market_id market_name side : String) (r : ATHRecord)
    (l : List (ℚ × ℚ × ℚ)) : ATHRecord :=
  l.foldl
    (fun a x => check_ath (some a) market_id market_name x.1 x.2.1 x.2.2 side)
    r

/-- Repeated `check_ath` ingestion from an absent record (the dict entry
after each observation). -/
def athRun (market_id market_name side : String) (l : List (ℚ × ℚ × ℚ)) :
    Option ATHRecord :=
  l.foldl
    (fun acc x => some (check_ath acc market_id market_name x.1 x.2.1 x.2.2
      side))
    none

/-- Repeated `check_atl` ingestion from an existing record. -/
def atlRunFrom (market_id market_name side : String) (r : ATLRecord)
    (l : List (ℚ × ℚ × ℚ)) : ATLRecord :=
  l.foldl
    (fun a x => check_atl (some a) market_id market_name x.1 x.2.1 x.2.2 side)
    r

/-- Repeated `check_atl` ingestion from an absent record. -/
def atlRun (market_id market_name side : String) (l : List (ℚ × ℚ × ℚ)) :
    Option ATLRecord :=
  l.foldl
    (fun acc x => some (check_atl acc market_id market_name x.1 x.2.1 x.2.2
      side))
    none

/-- One `check_ath` step never lowers the recorded price. -/
lemma check_ath_step_mono (market_id market_name side : String)
    (r : ATHRecord) (p s t : ℚ) :
    r.price ≤ (check_ath (some r) market_id market_name p s t side).price := by
  rw [check_ath]
  split
  · exact le_of_lt (by assumption)
  · exact le_refl _

/-- One `check_atl` step never raises the recorded price. -/
lemma check_atl_step_mono (market_id market_name side : String)
    (r : ATLRecord) (p s t : ℚ) :
    (check_atl (some r) market_id market_name p s t side).price ≤ r.price := by
  rw [check_atl]
  split
  · exact le_of_lt (by assumption)
  · exact le_refl _

/-- Claim C6: ATH/ATL extremes.  Across any ingestion sequence for one
key the ATH price is non-decreasing and the ATL price non-increasing;
a price that does not strictly exceed (resp. undercut) the stored
extreme — in particular an equal price — leaves the record, including
its timestamp, untouched (first occurrence wins); and the spec's
example `[0.40, 0.38, 0.42, 0.35]` on the ask side ends with ATH 0.42
recorded at observation 3 and ATL 0.35 recorded at observation 4. -/
theorem C6_extreme_records (market_id market_name side : String) :
    (∀ (r : ATHRecord) (l : List (ℚ × ℚ × ℚ)),
      r.price ≤ (athRunFrom market_id market_name side r l).price) ∧
    (∀ (r : ATLRecord) (l : List (ℚ × ℚ × ℚ)),
      (atlRunFrom market_id market_name side r l).price ≤ r.price) ∧
    (∀ (r : ATHRecord) (p s t : ℚ), p ≤ r.price →
      check_ath (some r) market_id market_name p s t side = r) ∧
    (∀ (r : ATLRecord) (p s t : ℚ), r.price ≤ p →
      check_atl (some r) market_id market_name p s t side = r) ∧
    athRun "m" "n" "ask" [(2/5, 1, 1), (19/50, 1, 2), (21/50, 1, 3),
        (7/20, 1, 4)] = some ⟨"m", "n", 21/50, 1, 3, "ask"⟩ ∧
    atlRun "m" "n" "ask" [(2/5, 1, 1), (19/50, 1, 2), (21/50, 1, 3),
        (7/20, 1, 4)] = some ⟨"m", "n", 7/20, 1, 4, "ask"⟩ := by
  refine ⟨?_, ?_, ?_, ?_, ?_, ?_⟩
  · intro r l
    induction l generalizing r with
    | nil => exact le_refl _
    | cons x t ih =>
      exact le_trans (check_ath_step_mono market_id market_name side r
        x.1 x.2.1 x.2.2) (ih _)
  · intro r l
    induction l generalizing r with
    | nil => exact le_refl _
    | cons x t ih =>
      exact le_trans (ih _) (check_atl_step_mono market_id market_name side r
        x.1 x.2.1 x.2.2)
  · intro r p s t hp
    rw [check_ath, if_neg (not_lt.mpr hp)]
  · intro r p s t hp
    rw [check_atl, if_neg (not_lt.mpr hp)]
  · norm_num [athRun, check_ath]
  · norm_num [atlRun, check_atl]

/-- Witness for C6: an equal-price observation does not overwrite the
stored ATH record. -/
theorem C6_extreme_records_witness :
    check_ath (some ⟨"m", "n", 1/2, 3, 7, "ask"⟩) "m" "n" (1/2) 9 8 "ask" =
      (⟨"m", "n", 1/2, 3, 7, "ask"⟩ : ATHRecord) :=
  (C6_extreme_records "m" "n" "ask").2.2.1 ⟨"m", "n", 1/2, 3, 7, "ask"⟩
    (1/2) 9 8 (by norm_num)

/-- A sample snapshot used by concrete witnesses. -/
def snapSample : OrderbookSnapshot :=
  ⟨0, "tok", "Event - Yes", 2/5, 21/50, 10, 5, 1/50, 41/100⟩

/-- `dequePush` keeps exactly `min (length + 1) cap` elements. -/
lemma dequePush_length {α : Type} (cap : Nat) (h : List α) (x : α) :
    (dequePush cap h x).length = min (h.length + 1) cap := by
  simp only [dequePush]
  split <;> simp_all <;> omega

/-- Folding `dequePush` from an empty history retains exactly the last
`cap` elements, in order. -/
lemma dequePush_foldl {α : Type} (cap : Nat) (hcap : 0 < cap)
    (xs : List α) :
    xs.foldl (dequePush cap) [] = xs.drop (xs.length - cap) := by
  induction xs using List.reverseRecOn with
  | nil => simp
  | append_singleton l a ih =>
    rw [List.foldl_append, List.foldl_cons, List.foldl_nil, ih]
    by_cases hlt : l.length < cap
    · have h0 : l.length - cap = 0 := by omega
      have h1 : (l ++ [a]).length - cap = 0 := by
        simp only [List.length_append, List.length_singleton]
        omega
      rw [h0, h1, List.drop_zero, List.drop_zero, dequePush]
      have : ¬ cap < (l ++ [a]).length := by
        simp only [List.length_append, List.length_singleton]
        omega
      simp only [this, if_false]
    · push_neg at hlt
      have hdlen : (l.drop (l.length - cap)).length = cap := by
        rw [List.length_drop]
        omega
      rw [dequePush]
      have hcond : cap < (l.drop (l.length - cap) ++ [a]).length := by
        simp only [List.length_append, List.length_singleton, hdlen]
        omega
      simp only [hcond, if_true]
      have hdrop1 : (l.drop (l.length - cap) ++ [a]).length - cap = 1 := by
        simp only [List.length_append, List.length_singleton, hdlen]
        omega
      rw [hdrop1]
      rw [List.drop_append_of_le_length (by omega : 1 ≤ (l.drop (l.length - cap)).length)]
      rw [List.drop_drop]
      have h2 : (l ++ [a]).length - cap = l.length - cap + 1 := by
        simp only [List.length_append, List.length_singleton]
        omega
      rw [h2]
      rw [List.drop_append_of_le_length (by omega : l.length - cap + 1 ≤ l.length)]

/-- Claim C7: the per-instrument history ring buffer.  A push never
grows the history beyond `MAX_ORDERBOOK_HISTORY`, and ingesting
`capacity + k` snapshots from empty leaves exactly the most recent
`capacity` snapshots in arrival order (the `k` oldest evicted). -/
theorem C7_history_ring_buffer :
    (∀ (h : List OrderbookSnapshot) (x : OrderbookSnapshot),
      h.length ≤ MAX_ORDERBOOK_HISTORY →
      (dequePush MAX_ORDERBOOK_HISTORY h x).length ≤ MAX_ORDERBOOK_HISTORY) ∧
    (∀ (xs : List OrderbookSnapshot) (k : Nat),
      xs.length = MAX_ORDERBOOK_HISTORY + k →
      xs.foldl (dequePush MAX_ORDERBOOK_HISTORY) [] = xs.drop k ∧
      (xs.foldl (dequePush MAX_ORDERBOOK_HISTORY) []).length =
        MAX_ORDERBOOK_HISTORY) := by
  constructor
  · intro h x _
    rw [dequePush_length]
    omega
  · intro xs k hlen
    have hfold := dequePush_foldl MAX_ORDERBOOK_HISTORY
      (by norm_num [MAX_ORDERBOOK_HISTORY]) xs
    have hk : xs.length - MAX_ORDERBOOK_HISTORY = k := by omega
    rw [hk] at hfold
    refine ⟨hfold, ?_⟩
    rw [hfold, List.length_drop, hlen]
    omega

/-- Witness for C7 with 1001 ingested snapshots (`k = 1`). -/
theorem C7_history_ring_buffer_witness :
    (List.replicate 1001 snapSample).foldl
        (dequePush MAX_ORDERBOOK_HISTORY) [] =
      (List.replicate 1001 snapSample).drop 1 ∧
    ((List.replicate 1001 snapSample).foldl
        (dequePush MAX_ORDERBOOK_HISTORY) []).length =
      MAX_ORDERBOOK_HISTORY :=
  C7_history_ring_buffer.2 (List.replicate 1001 snapSample) 1
    (by rw [List.length_replicate, MAX_ORDERBOOK_HISTORY])

/-- The empty monitor state (module start-up). -/
def stEmpty : MonitorState := ⟨[], [], [], [], [], [], [], []⟩

/-- Claim C10: empty-side skip.  A frame with an empty bid list or an
empty ask list changes nothing: both ingestion paths return the store
state unchanged — no current snapshot, history entry, extreme record,
TotalRecord or best match is produced for that item. -/
theorem C10_empty_side_skip (st : MonitorState) (now : ℚ)
    (token_id market_name : String) (aid : Option String)
    (bids asks : List BookEntry) (h : bids = [] ∨ asks = []) :
    process_orderbook_data st token_id market_name bids asks now = st ∧
    process_book_message st ⟨aid, bids, asks⟩ now = st := by
  have hsnap : ∀ mid mname, mkSnapshot now mid mname bids asks = none := by
    intro mid mname
    rcases h with h | h <;> subst h
    · cases asks <;> rfl
    · cases bids <;> rfl
  constructor
  · simp only [process_orderbook_data, hsnap]
  · cases aid with
    | none => rfl
    | some a => simp only [process_book_message, hsnap]

/-- Witness for C10: a frame with one bid and no asks, against the
empty store. -/
theorem C10_empty_side_skip_witness :
    process_orderbook_data stEmpty "tok" "Event - Yes"
        [BookEntry.mk (1/2) 1] [] 0 = stEmpty ∧
    process_book_message stEmpty ⟨some "tok", [BookEntry.mk (1/2) 1], []⟩ 0 =
      stEmpty :=
  C10_empty_side_skip stEmpty 0 "tok" "Event - Yes" (some "tok")
    [BookEntry.mk (1/2) 1] [] (Or.inr rfl)

/-- Looking up the key just written returns the new value. -/
lemma alookup_updateAssoc_self {α : Type} (l : List (String × α))
    (k : String) (v : α) : alookup (updateAssoc l k v) k = some v := by
  induction l with
  | nil => simp [updateAssoc, alookup]
  | cons p rest ih =>
    obtain ⟨k', v'⟩ := p
    by_cases h : k' = k
    · simp [updateAssoc, alookup, h]
    · simp [updateAssoc, alookup, h, ih]

/-- Writing one key leaves lookups of any other key unchanged. -/
lemma alookup_updateAssoc_ne {α : Type} (l : List (String × α))
    (k1 k : String) (v : α) (h : k1 ≠ k) :
    alookup (updateAssoc l k1 v) k = alookup l k := by
  induction l with
  | nil => simp [updateAssoc, alookup, h]
  | cons p rest ih =>
    obtain ⟨k', v'⟩ := p
    by_cases h2 : k' = k1
    · subst h2
      simp [updateAssoc, alookup, h]
    · simp [updateAssoc, alookup, h2, ih]

/-- Processing a group with a different dedup key changes neither the
TotalRecords filtered at `k` nor the last-total stored at `k`. -/
lemma processGroup_frame (now : ℚ) (st : MonitorState)
    (g : String × String × List GroupItem) (k : String)
    (hk : pairKey g.1 g.2.1 ≠ k) :
    (processGroup now st g).total_records.filter
        (fun r => decide (r.event_id = k)) =
      st.total_records.filter (fun r => decide (r.event_id = k)) ∧
    alookup (processGroup now st g).last_totals k =
      alookup st.last_totals k := by
  obtain ⟨ev, mt, items⟩ := g
  rcases items with _ | ⟨s1, items⟩
  · exact ⟨rfl, rfl⟩
  rcases items with _ | ⟨s2, items⟩
  · exact ⟨rfl, rfl⟩
  rcases items with _ | ⟨s3, items⟩
  · simp only [processGroup]
    split
    · constructor
      · split
        · simp [mkTotalRecord, List.filter_append, hk]
        · simp [mkTotalRecord, List.filter_append, hk]
      · split
        · exact alookup_updateAssoc_ne _ _ _ _ hk
        · exact alookup_updateAssoc_ne _ _ _ _ hk
    · exact ⟨rfl, rfl⟩
  · exact ⟨rfl, rfl⟩

/-- Processing a two-member group whose sum passed the dedup test
appends exactly its TotalRecord and stores its sum. -/
lemma processGroup_hit (now : ℚ) (st : MonitorState) (ev mt : String)
    (s1 s2 : GroupItem)
    (hc : totalChanged st.last_totals (pairKey ev mt)
        (s1.snapshot.best_ask + s2.snapshot.best_ask) = true) :
    (processGroup now st (ev, mt, [s1, s2])).total_records =
      st.total_records ++
        [mkTotalRecord now ev mt s1 s2
          (s1.snapshot.best_ask + s2.snapshot.best_ask)] ∧
    (processGroup now st (ev, mt, [s1, s2])).last_totals =
      updateAssoc st.last_totals (pairKey ev mt)
        (s1.snapshot.best_ask + s2.snapshot.best_ask) := by
  simp only [processGroup, hc, if_true]
  split
  · exact ⟨rfl, rfl⟩
  · exact ⟨rfl, rfl⟩

/-- Processing a two-member group whose sum failed the dedup test is a
no-op. -/
lemma processGroup_miss (now : ℚ) (st : MonitorState) (ev mt : String)
    (s1 s2 : GroupItem)
    (hc : totalChanged st.last_totals (pairKey ev mt)
        (s1.snapshot.best_ask + s2.snapshot.best_ask) = false) :
    processGroup now st (ev, mt, [s1, s2]) = st := by
  simp only [processGroup, hc]
  rfl

/-- Folding over groups none of which carries key `k` preserves the
records filtered at `k` and the last-total at `k`. -/
lemma foldl_processGroup_frame (now : ℚ) (k : String) :
    ∀ (l : List (String × String × List GroupItem)) (st : MonitorState),
      (∀ g ∈ l, pairKey g.1 g.2.1 ≠ k) →
      ((l.foldl (processGroup now) st).total_records.filter
          (fun r => decide (r.event_id = k)) =
        st.total_records.filter (fun r => decide (r.event_id = k))) ∧
      alookup (l.foldl (processGroup now) st).last_totals k =
        alookup st.last_totals k := by
  intro l
  induction l with
  | nil =>
    intro st _
    exact ⟨rfl, rfl⟩
  | cons g t ih =>
    intro st hall
    rw [List.foldl_cons]
    obtain ⟨h1, h2⟩ := processGroup_frame now st g k (hall g (by simp))
    obtain ⟨h3, h4⟩ := ih (processGroup now st g)
      (fun x hx => hall x (by simp [hx]))
    exact ⟨h3.trans h1, h4.trans h2⟩

/-- The nested loops of `check_best_matches` visit exactly the
flattened group sequence. -/
lemma check_best_matches_eq (now : ℚ) (st : MonitorState) :
    check_best_matches now st =
      (flatGroups (buildGroups (st.current_snapshots.map Prod.snd))).foldl
        (processGroup now) st := by
  rw [check_best_matches]
  generalize buildGroups (st.current_snapshots.map Prod.snd) = gs
  induction gs generalizing st with
  | nil => rfl
  | cons p rest ih =>
    obtain ⟨ev, inner⟩ := p
    rw [List.foldl_cons, flatGroups, List.foldl_append, ← ih, List.foldl_map]

/-- Scanning a group list with pairwise-distinct dedup keys: the target
two-member group appends exactly its TotalRecord and stores its sum
when the dedup test passes, and changes nothing at its key otherwise;
the test is evaluated against the pre-scan last-totals. -/
lemma scanGroups_spec (now : ℚ) :
    ∀ (l : List (String × String × List GroupItem)) (st : MonitorState)
      (ev mt : String) (s1 s2 : GroupItem),
      (ev, mt, [s1, s2]) ∈ l →
      (l.map (fun g => pairKey g.1 g.2.1)).Nodup →
      (totalChanged st.last_totals (pairKey ev mt)
          (s1.snapshot.best_ask + s2.snapshot.best_ask) = true →
        (l.foldl (processGroup now) st).total_records.filter
            (fun r => decide (r.event_id = pairKey ev mt)) =
          st.total_records.filter
            (fun r => decide (r.event_id = pairKey ev mt)) ++
            [mkTotalRecord now ev mt s1 s2
              (s1.snapshot.best_ask + s2.snapshot.best_ask)] ∧
        alookup (l.foldl (processGroup now) st).last_totals (pairKey ev mt) =
          some (s1.snapshot.best_ask + s2.snapshot.best_ask)) ∧
      (totalChanged st.last_totals (pairKey ev mt)
          (s1.snapshot.best_ask + s2.snapshot.best_ask) = false →
        (l.foldl (processGroup now) st).total_records.filter
            (fun r => decide (r.event_id = pairKey ev mt)) =
          st.total_records.filter
            (fun r => decide (r.event_id = pairKey ev mt)) ∧
        alookup (l.foldl (processGroup now) st).last_totals (pairKey ev mt) =
          alookup st.last_totals (pairKey ev mt)) := by
  intro l
  induction l with
  | nil =>
    intro st ev mt s1 s2 hmem _
    exact absurd hmem (List.not_mem_nil _)
  | cons g t ih =>
    intro st ev mt s1 s2 hmem hnd
    rw [List.map_cons, List.nodup_cons] at hnd
    obtain ⟨hg, hndt⟩ := hnd
    rcases List.mem_cons.mp hmem with heq | hmemt
    · subst heq
      rw [List.foldl_cons]
      have hkeys : ∀ g' ∈ t, pairKey g'.1 g'.2.1 ≠ pairKey ev mt := by
        intro g' hg' heq'
        apply hg
        rw [← heq']
        exact List.mem_map_of_mem (fun g'' => pairKey g''.1 g''.2.1) hg'
      constructor
      · intro hc
        obtain ⟨htr, hlt⟩ := processGroup_hit now st ev mt s1 s2 hc
        obtain ⟨hf1, hf2⟩ := foldl_processGroup_frame now (pairKey ev mt) t
          (processGroup now st (ev, mt, [s1, s2])) hkeys
        constructor
        · rw [hf1, htr, List.filter_append]
          simp [mkTotalRecord]
        · rw [hf2, hlt]
          exact alookup_updateAssoc_self _ _ _
      · intro hc
        rw [processGroup_miss now st ev mt s1 s2 hc]
        exact foldl_processGroup_frame now (pairKey ev mt) t st hkeys
    · have hne : pairKey g.1 g.2.1 ≠ pairKey ev mt := by
        intro heq'
        apply hg
        rw [heq']
        exact List.mem_map_of_mem (fun g'' => pairKey g''.1 g''.2.1) hmemt
      rw [List.foldl_cons]
      obtain ⟨p1, p2⟩ := processGroup_frame now st g (pairKey ev mt) hne
      have hcsame : ∀ x,
          totalChanged (processGroup now st g).last_totals (pairKey ev mt) x =
            totalChanged st.last_totals (pairKey ev mt) x := by
        intro x
        rw [totalChanged, totalChanged, p2]
      obtain ⟨ihh, ihm⟩ := ih (processGroup now st g) ev mt s1 s2 hmemt hndt
      constructor
      · intro hc
        obtain ⟨q1, q2⟩ := ihh (by rw [hcsame]; exact hc)
        exact ⟨by rw [q1, p1], q2⟩
      · intro hc
        obtain ⟨q1, q2⟩ := ihm (by rw [hcsame]; exact hc)
        exact ⟨by rw [q1, p1], by rw [q2, p2]⟩

/-- The three market-type labels `check_best_matches` can produce. -/
def typeNames : List String := ["Moneyline", "Spread", "O/U"]

/-- The classifier always lands on a type label. -/
lemma marketTypeOf_mem (e : String) : marketTypeOf e ∈ typeNames := by
  rw [marketTypeOf]
  split
  · simp [typeNames]
  · split <;> simp [typeNames]

/-- The dedup key `ev ++ "_" ++ mt` is injective when both type parts
are type labels: the labels end in distinct characters, so equal keys
force equal labels and then equal event names. -/
lemma pairKey_inj (e1 m1 e2 m2 : String) (h1 : m1 ∈ typeNames)
    (h2 : m2 ∈ typeNames) (h : pairKey e1 m1 = pairKey e2 m2) :
    e1 = e2 ∧ m1 = m2 := by
  have hd := congrArg String.data h
  simp only [pairKey, String.data_append] at hd
  have hr := congrArg List.reverse hd
  simp only [List.reverse_append] at hr
  have dM : "Moneyline".data = ['M','o','n','e','y','l','i','n','e'] := rfl
  have dS : "Spread".data = ['S','p','r','e','a','d'] := rfl
  have dO : "O/U".data = ['O','/','U'] := rfl
  simp only [typeNames, List.mem_cons, List.not_mem_nil, or_false] at h1 h2
  rcases h1 with rfl | rfl | rfl <;> rcases h2 with rfl | rfl | rfl <;>
    simp only [dM, dS, dO] at hr <;> simp at hr <;>
    first
      | (exact ⟨String.ext (List.reverse_injective hr), rfl⟩)
      | (exact ⟨String.ext hr, rfl⟩)

/-- Invariant of the inner defaultdict: distinct keys, all of them type
labels. -/
def GoodInner (inner : List (String × List GroupItem)) : Prop :=
  (inner.map Prod.fst).Nodup ∧ ∀ q ∈ inner, q.1 ∈ typeNames

/-- Invariant of the outer defaultdict: distinct event keys, good inner
maps. -/
def GoodGroups (gs : List (String × List (String × List GroupItem))) :
    Prop :=
  (gs.map Prod.fst).Nodup ∧ ∀ p ∈ gs, GoodInner p.2

/-- Keys after an inner insertion: unchanged for a known type, the new
type appended otherwise. -/
lemma addToInner_keys (inner : List (String × List GroupItem)) (mt : String)
    (it : GroupItem) :
    (addToInner inner mt it).map Prod.fst =
      if mt ∈ inner.map Prod.fst then inner.map Prod.fst
      else inner.map Prod.fst ++ [mt] := by
  induction inner with
  | nil => simp [addToInner]
  | cons p rest ih =>
    obtain ⟨mt', its⟩ := p
    by_cases h : mt' = mt
    · subst h
      simp [addToInner]
    · have hstep : addToInner ((mt', its) :: rest) mt it =
          (mt', its) :: addToInner rest mt it := by
        simp [addToInner, h]
      rw [hstep, List.map_cons, ih, List.map_cons]
      by_cases hm : mt ∈ rest.map Prod.fst
      · rw [if_pos hm, if_pos (by simp [hm])]
      · rw [if_neg hm, if_neg (by simp [hm, Ne.symm h])]
        simp

/-- Every key after an inner insertion is an old key or the inserted
type. -/
lemma addToInner_fst (inner : List (String × List GroupItem)) (mt : String)
    (it : GroupItem) :
    ∀ q ∈ addToInner inner mt it, q.1 ∈ inner.map Prod.fst ∨ q.1 = mt := by
  intro q hq
  have hmm := List.mem_map_of_mem Prod.fst hq
  rw [addToInner_keys] at hmm
  by_cases hm : mt ∈ inner.map Prod.fst
  · rw [if_pos hm] at hmm
    exact Or.inl hmm
  · rw [if_neg hm] at hmm
    rcases List.mem_append.mp hmm with h | h
    · exact Or.inl h
    · exact Or.inr (List.mem_singleton.mp h)

/-- Inner insertion preserves the inner invariant. -/
lemma addToInner_good (inner : List (String × List GroupItem)) (mt : String)
    (it : GroupItem) (hmt : mt ∈ typeNames) (h : GoodInner inner) :
    GoodInner (addToInner inner mt it) := by
  obtain ⟨hnd, hmem⟩ := h
  constructor
  · rw [addToInner_keys]
    by_cases hm : mt ∈ inner.map Prod.fst
    · rw [if_pos hm]
      exact hnd
    · rw [if_neg hm]
      simp [List.nodup_append, hnd, hm]
  · intro q hq
    rcases addToInner_fst inner mt it q hq with hk | hk
    · rcases List.mem_map.mp hk with ⟨p, hp, hfst⟩
      rw [← hfst]
      exact hmem p hp
    · rw [hk]
      exact hmt

/-- Keys after an outer insertion. -/
lemma addToGroups_keys (gs : List (String × List (String × List GroupItem)))
    (ev mt : String) (it : GroupItem) :
    (addToGroups gs ev mt it).map Prod.fst =
      if ev ∈ gs.map Prod.fst then gs.map Prod.fst
      else gs.map Prod.fst ++ [ev] := by
  induction gs with
  | nil => simp [addToGroups]
  | cons p rest ih =>
    obtain ⟨ev', inner⟩ := p
    by_cases h : ev' = ev
    · subst h
      simp [addToGroups]
    · have hstep : addToGroups ((ev', inner) :: rest) ev mt it =
          (ev', inner) :: addToGroups rest ev mt it := by
        simp [addToGroups, h]
      rw [hstep, List.map_cons, ih, List.map_cons]
      by_cases hm : ev ∈ rest.map Prod.fst
      · rw [if_pos hm, if_pos (by simp [hm])]
      · rw [if_neg hm, if_neg (by simp [hm, Ne.symm h])]
        simp

/-- Every inner map after an outer insertion is an old inner map, an
old inner map with one insertion, or the fresh singleton. -/
lemma addToGroups_snd (gs : List (String × List (String × List GroupItem)))
    (ev mt : String) (it : GroupItem) :
    ∀ p ∈ addToGroups gs ev mt it,
      (∃ p0 ∈ gs, p.2 = p0.2) ∨
      (∃ p0 ∈ gs, p.2 = addToInner p0.2 mt it) ∨
      p.2 = [(mt, [it])] := by
  induction gs with
  | nil =>
    intro p hp
    simp only [addToGroups, List.mem_singleton] at hp
    subst hp
    exact Or.inr (Or.inr rfl)
  | cons p0 rest ih =>
    obtain ⟨ev', inner⟩ := p0
    by_cases h : ev' = ev
    · subst h
      intro p hp
      have hstep : addToGroups ((ev', inner) :: rest) ev' mt it =
          (ev', addToInner inner mt it) :: rest := by
        simp [addToGroups]
      rw [hstep] at hp
      rcases List.mem_cons.mp hp with rfl | hp
      · exact Or.inr (Or.inl ⟨(ev', inner), by simp, rfl⟩)
      · exact Or.inl ⟨p, by simp [hp], rfl⟩
    · intro p hp
      have hstep : addToGroups ((ev', inner) :: rest) ev mt it =
          (ev', inner) :: addToGroups rest ev mt it := by
        simp [addToGroups, h]
      rw [hstep] at hp
      rcases List.mem_cons.mp hp with rfl | hp
      · exact Or.inl ⟨(ev', inner), by simp, rfl⟩
      · rcases ih p hp with ⟨q0, hq0, he⟩ | ⟨q0, hq0, he⟩ | he
        · exact Or.inl ⟨q0, by simp [hq0], he⟩
        · exact Or.inr (Or.inl ⟨q0, by simp [hq0], he⟩)
        · exact Or.inr (Or.inr he)

/-- Outer insertion preserves the grouping invariant. -/
lemma addToGroups_good (gs : List (String × List (String × List GroupItem)))
    (ev mt : String) (it : GroupItem) (hmt : mt ∈ typeNames)
    (h : GoodGroups gs) : GoodGroups (addToGroups gs ev mt it) := by
  obtain ⟨hnd, hmem⟩ := h
  constructor
  · rw [addToGroups_keys]
    by_cases hm : ev ∈ gs.map Prod.fst
    · rw [if_pos hm]
      exact hnd
    · rw [if_neg hm]
      simp [List.nodup_append, hnd, hm]
  · intro p hp
    rcases addToGroups_snd gs ev mt it p hp with ⟨q0, hq0, he⟩ |
      ⟨q0, hq0, he⟩ | he
    · rw [he]
      exact hmem q0 hq0
    · rw [he]
      exact addToInner_good _ _ _ hmt (hmem q0 hq0)
    · rw [he]
      constructor
      · simp
      · intro q hq
        rw [List.mem_singleton] at hq
        rw [hq]
        exact hmt

/-- The type component a snapshot is grouped under is always a type
label. -/
lemma snapshotGroupKey_type (s : OrderbookSnapshot) (ev mt : String)
    (it : GroupItem) (h : snapshotGroupKey s = some (ev, mt, it)) :
    mt ∈ typeNames := by
  unfold snapshotGroupKey at h
  rcases hsp : pySplit s.market_name " - " with _ | ⟨p0, rest⟩
  · rw [hsp] at h
    cases h
  · rcases rest with _ | ⟨p1, rest2⟩
    · rw [hsp] at h
      cases h
    · rw [hsp] at h
      simp only [Option.some.injEq, Prod.mk.injEq] at h
      obtain ⟨-, h2, -⟩ := h
      rw [← h2]
      exact marketTypeOf_mem p0

/-- The grouping loop always produces a well-formed nested defaultdict. -/
lemma buildGroups_good (snaps : List OrderbookSnapshot) :
    GoodGroups (buildGroups snaps) := by
  rw [buildGroups]
  suffices h : ∀ gs, GoodGroups gs →
      GoodGroups (snaps.foldl
        (fun gs s =>
          match snapshotGroupKey s with
          | some (ev, mt, it) => addToGroups gs ev mt it
          | none => gs) gs) by
    exact h [] (by simp [GoodGroups])
  induction snaps with
  | nil =>
    intro gs hgs
    exact hgs
  | cons s t ih =>
    intro gs hgs
    rw [List.foldl_cons]
    apply ih
    cases hk : snapshotGroupKey s with
    | none => simpa [hk] using hgs
    | some trip =>
      obtain ⟨ev, mt, it⟩ := trip
      simp only [hk]
      exact addToGroups_good gs ev mt it
        (snapshotGroupKey_type s ev mt it hk) hgs

/-- The tail of a well-formed grouping is well-formed. -/
lemma goodGroups_tail (p : String × List (String × List GroupItem))
    (rest : List (String × List (String × List GroupItem)))
    (h : GoodGroups (p :: rest)) : GoodGroups rest := by
  obtain ⟨hnd, hmem⟩ := h
  rw [List.map_cons, List.nodup_cons] at hnd
  exact ⟨hnd.2, fun q hq => hmem q (List.mem_cons_of_mem p hq)⟩

/-- Every flattened group's event name is an outer key. -/
lemma flatGroups_fst :
    ∀ gs : List (String × List (String × List GroupItem)),
      ∀ g ∈ flatGroups gs, g.1 ∈ gs.map Prod.fst := by
  intro gs
  induction gs with
  | nil =>
    intro g hg
    cases hg
  | cons p rest ih =>
    intro g hg
    obtain ⟨ev, inner⟩ := p
    rw [flatGroups] at hg
    rcases List.mem_append.mp hg with hg | hg
    · rcases List.mem_map.mp hg with ⟨q, _, rfl⟩
      simp
    · simp [ih g hg]

/-- Every flattened group's type name is a type label. -/
lemma flatGroups_types :
    ∀ gs : List (String × List (String × List GroupItem)), GoodGroups gs →
      ∀ g ∈ flatGroups gs, g.2.1 ∈ typeNames := by
  intro gs
  induction gs with
  | nil =>
    intro _ g hg
    cases hg
  | cons p rest ih =>
    intro hgs g hg
    obtain ⟨ev, inner⟩ := p
    rw [flatGroups] at hg
    rcases List.mem_append.mp hg with hg | hg
    · rcases List.mem_map.mp hg with ⟨q, hq, rfl⟩
      exact (hgs.2 (ev, inner) (by simp)).2 q hq
    · exact ih (goodGroups_tail _ _ hgs) g hg

/-- The dedup keys of the flattened groups of a well-formed grouping
are pairwise distinct. -/
lemma flatGroups_keys_nodup :
    ∀ gs : List (String × List (String × List GroupItem)), GoodGroups gs →
      ((flatGroups gs).map (fun g => pairKey g.1 g.2.1)).Nodup := by
  intro gs
  induction gs with
  | nil =>
    intro _
    simp [flatGroups]
  | cons p rest ih =>
    intro hgs
    obtain ⟨ev, inner⟩ := p
    have htail := goodGroups_tail _ _ hgs
    obtain ⟨hinnd, hintypes⟩ := hgs.2 (ev, inner) (by simp)
    have hev : ev ∉ rest.map Prod.fst := by
      have := hgs.1
      rw [List.map_cons, List.nodup_cons] at this
      exact this.1
    rw [flatGroups, List.map_append, List.nodup_append]
    refine ⟨?_, ih htail, ?_⟩
    · rw [List.map_map]
      have hcomp :
          inner.map ((fun g => pairKey g.1 g.2.1) ∘
            (fun q => (ev, q.1, q.2))) =
          (inner.map Prod.fst).map (fun m => pairKey ev m) := by
        rw [List.map_map]
        rfl
      rw [hcomp]
      refine List.Nodup.map_on ?_ hinnd
      intro x hx y hy hxy
      rcases List.mem_map.mp hx with ⟨qx, hqx, rfl⟩
      rcases List.mem_map.mp hy with ⟨qy, hqy, rfl⟩
      exact (pairKey_inj ev qx.1 ev qy.1 (hintypes qx hqx)
        (hintypes qy hqy) hxy).2
    · intro a ha hb
      rcases List.mem_map.mp ha with ⟨g1, hg1, rfl⟩
      rcases List.mem_map.mp hb with ⟨g2, hg2, hkey⟩
      rcases List.mem_map.mp hg1 with ⟨q, hq, rfl⟩
      have hevg2 : g2.1 = ev := by
        have := pairKey_inj g2.1 g2.2.1 ev q.1
          (flatGroups_types rest htail g2 hg2) (hintypes q hq) hkey
        exact this.1
      apply hev
      rw [← hevg2]
      exact flatGroups_fst rest g2 hg2

/-- Claim C5: TotalRecord deduplication.  On a scan, for any
`(event, market-type)` group with exactly two members: the dedup test
passes exactly when no sum is recorded for the group key or the new
pair sum of best asks moved by more than 0.001; when it passes, exactly
one TotalRecord for that key (with `is_best = sum < 1`) is appended and
the last-recorded value is set to the sum; when it fails, nothing is
appended for that key and the last-recorded value is unchanged. -/
theorem C5_totalrecord_dedup (st : MonitorState) (now : ℚ)
    (ev mt : String) (s1 s2 : GroupItem)
    (hmem : (ev, mt, [s1, s2]) ∈
      flatGroups (buildGroups (st.current_snapshots.map Prod.snd))) :
    (∀ (lt : List (String × ℚ)) (k : String) (t : ℚ),
      totalChanged lt k t = true ↔
        (alookup lt k = none ∨
          ∃ last, alookup lt k = some last ∧ 1/1000 < |last - t|)) ∧
    (∀ t : ℚ, (mkTotalRecord now ev mt s1 s2 t).is_best = decide (t < 1)) ∧
    (totalChanged st.last_totals (pairKey ev mt)
        (s1.snapshot.best_ask + s2.snapshot.best_ask) = true →
      (check_best_matches now st).total_records.filter
          (fun r => decide (r.event_id = pairKey ev mt)) =
        st.total_records.filter
          (fun r => decide (r.event_id = pairKey ev mt)) ++
          [mkTotalRecord now ev mt s1 s2
            (s1.snapshot.best_ask + s2.snapshot.best_ask)] ∧
      alookup (check_best_matches now st).last_totals (pairKey ev mt) =
        some (s1.snapshot.best_ask + s2.snapshot.best_ask)) ∧
    (totalChanged st.last_totals (pairKey ev mt)
        (s1.snapshot.best_ask + s2.snapshot.best_ask) = false →
      (check_best_matches now st).total_records.filter
          (fun r => decide (r.event_id = pairKey ev mt)) =
        st.total_records.filter
          (fun r => decide (r.event_id = pairKey ev mt)) ∧
      alookup (check_best_matches now st).last_totals (pairKey ev mt) =
        alookup st.last_totals (pairKey ev mt)) := by
  have hnd := flatGroups_keys_nodup _
    (buildGroups_good (st.current_snapshots.map Prod.snd))
  have hspec := scanGroups_spec now
    (flatGroups (buildGroups (st.current_snapshots.map Prod.snd))) st
    ev mt s1 s2 hmem hnd
  refine ⟨?_, fun t => rfl, ?_, ?_⟩
  · intro lt k t
    rw [totalChanged]
    cases halk : alookup lt k with
    | none => simp
    | some last => simp
  · intro hc
    rw [check_best_matches_eq]
    exact hspec.1 hc
  · intro hc
    rw [check_best_matches_eq]
    exact hspec.2 hc

/-- First snapshot of the C5 witness pair. -/
def snapW1 : OrderbookSnapshot := ⟨0, "t1", "EventA - Yes", 1, 1, 1, 1, 0, 1⟩

/-- Second snapshot of the C5 witness pair. -/
def snapW2 : OrderbookSnapshot := ⟨0, "t2", "EventA - No", 1, 2, 1, 1, 1, 1⟩

/-- Monitor-state sample for the C5 witness: one Moneyline pair,
nothing recorded yet. -/
def stW : MonitorState := ⟨[("t1", snapW1), ("t2", snapW2)], [], [], [],
  [], [], [], []⟩

/-- Witness group member 1. -/
def itW1 : GroupItem := ⟨snapW1, "Yes"⟩

/-- Witness group member 2. -/
def itW2 : GroupItem := ⟨snapW2, "No"⟩

/-- Witness for C5: on the sample state the pair's first scan passes
the dedup test and appends exactly one TotalRecord for its key. -/
theorem C5_totalrecord_dedup_witness :
    (check_best_matches 0 stW).total_records.filter
        (fun r => decide (r.event_id = pairKey "EventA" "Moneyline")) =
      stW.total_records.filter
        (fun r => decide (r.event_id = pairKey "EventA" "Moneyline")) ++
        [mkTotalRecord 0 "EventA" "Moneyline" itW1 itW2
          (itW1.snapshot.best_ask + itW2.snapshot.best_ask)] ∧
    alookup (check_best_matches 0 stW).last_totals
        (pairKey "EventA" "Moneyline") =
      some (itW1.snapshot.best_ask + itW2.snapshot.best_ask) :=
  (C5_totalrecord_dedup stW 0 "EventA" "Moneyline" itW1 itW2
      (by decide)).2.2.1 (by decide)
